import Mathlib

/-!
# Verification of the Boxing renderer

A shallow embedding of `src/lib.rs` (the whole repository): a utility that
renders a text message inside a rectangular box of line-drawing characters,
with configurable padding and alignment.

Strings are modelled as `List Char`: each list element stands for one
character unit of the Rust string, and width is the unit count, matching the
spec's character-unit measurement. The box glyphs are single units.
-/

namespace Boxing

/-- Glyph constants from the top of `lib.rs`. -/
def VERTICAL : Char := '│'

def HORIZONTAL : Char := '─'

def TOP_LEFT : Char := '┌'

def TOP_RIGHT : Char := '┐'

def BOTTOM_LEFT : Char := '└'

def BOTTOM_RIGHT : Char := '┘'

/-- `pub enum Alignment` from `lib.rs`. -/
inductive Alignment where
  | Left : Alignment
  | Right : Alignment
deriving DecidableEq, Repr

/-- `struct Formatting` from `lib.rs`. -/
structure Formatting where
  padding : Nat
  alignment : Alignment
  max_width : Nat
  padding_left : Option Nat
  padding_right : Option Nat
  padding_top : Option Nat
  padding_bottom : Option Nat
deriving DecidableEq, Repr

/-- `pub struct Box` from `lib.rs`: a message plus its formatting. -/
structure Box where
  message : List Char
  format : Formatting
deriving DecidableEq, Repr

/-- `Formatting::new`: the default configuration. -/
def Formatting.new : Formatting :=
  { padding := 2
  , alignment := Alignment.Left
  , max_width := 80
  , padding_left := none
  , padding_right := none
  , padding_top := none
  , padding_bottom := none }

/-- `Box::new`: create a new boxed message with the default formatting. -/
def Box.new (message : List Char) : Box :=
  { message := message, format := Formatting.new }

/-- `Box::padding`: set the global padding on the box. -/
def Box.padding (b : Box) (pad : Nat) : Box :=
  { b with format := { b.format with padding := pad } }

/-- `Box::alignment`: set the alignment of the content. -/
def Box.alignment (b : Box) (align : Alignment) : Box :=
  { b with format := { b.format with alignment := align } }

/-- `Box::max_width`: set the maximum width of the box before lines should wrap. -/
def Box.max_width (b : Box) (width : Nat) : Box :=
  { b with format := { b.format with max_width := width } }

/-- `Box::padding_bottom`: override the bottom padding. -/
def Box.padding_bottom (b : Box) (pad : Nat) : Box :=
  { b with format := { b.format with padding_bottom := some pad } }

/-- `Box::padding_top`: override the top padding. -/
def Box.padding_top (b : Box) (pad : Nat) : Box :=
  { b with format := { b.format with padding_top := some pad } }

/-- `Box::padding_left`: override the left padding. -/
def Box.padding_left (b : Box) (pad : Nat) : Box :=
  { b with format := { b.format with padding_left := some pad } }

/-- `Box::padding_right`: override the right padding. -/
def Box.padding_right (b : Box) (pad : Nat) : Box :=
  { b with format := { b.format with padding_right := some pad } }

/-- Model of `str::strip_suffix('\r')` as used inside Rust's `str::lines`:
drop one trailing carriage return when present. -/
def stripCR (l : List Char) : List Char :=
  if l.getLast? = some '\r' then l.dropLast else l

/-- Worker for the model of Rust's `str::lines`. `acc` holds the characters
of the current line in reverse. A chunk terminated by a newline has an
optional trailing carriage return stripped; the final unterminated chunk is
kept verbatim, and an empty final chunk yields no line. -/
def rustLinesAux : List Char → List Char → List (List Char)
  | [], acc => if acc = [] then [] else [acc.reverse]
  | c :: rest, acc =>
    if c = '\n' then stripCR acc.reverse :: rustLinesAux rest []
    else rustLinesAux rest (c :: acc)

/-- Model of Rust's `str::lines`: split at `\n` (stripping an optional
preceding `\r`); the final line terminator is optional; the empty string
has no lines. -/
def rustLines (s : List Char) : List (List Char) :=
  rustLinesAux s []

/-- `gen_whitespace`: helper to generate whitespace for padding. -/
def gen_whitespace (num : Nat) : List Char :=
  List.replicate num ' '

/-- `gen_top`: helper to build the top of the box. -/
def gen_top (length : Nat) : List Char :=
  TOP_LEFT :: (List.replicate length HORIZONTAL ++ [TOP_RIGHT, '\n'])

/-- `gen_bottom`: helper to build the bottom of the box. -/
def gen_bottom (length : Nat) : List Char :=
  BOTTOM_LEFT :: (List.replicate length HORIZONTAL ++ [BOTTOM_RIGHT, '\n'])

/-- `gen_vertical_padding`: `pad` rows of `│` + `length` spaces + `│` + newline. -/
def gen_vertical_padding (pad length : Nat) : List Char :=
  List.flatten (List.replicate pad
    (VERTICAL :: (gen_whitespace length ++ [VERTICAL, '\n'])))

/-- `gen_left_padding`: padding left of the content. Note that it reads the
global `format.padding`, not the resolved left padding. -/
def gen_left_padding (format : Formatting) (line_length : Nat) (max_length : Nat) :
    List Char :=
  let padding := match format.alignment with
    | Alignment.Left => format.padding
    | Alignment.Right => format.padding + max_length - line_length
  gen_whitespace padding

/-- `gen_right_padding`: padding right of the content. Note that it reads the
global `format.padding`, not the resolved right padding. -/
def gen_right_padding (format : Formatting) (line_length : Nat) (max_length : Nat) :
    List Char :=
  let padding := match format.alignment with
    | Alignment.Right => format.padding
    | Alignment.Left => format.padding + max_length - line_length
  gen_whitespace padding

/-- `wrap_lines`: wrap each message line with the box border on its left and right. -/
def wrap_lines (message : List Char) (format : Formatting) (max_length : Nat) :
    List Char :=
  List.flatten ((rustLines message).map (fun line =>
    VERTICAL :: (gen_left_padding format line.length max_length ++ line ++
      gen_right_padding format line.length max_length ++ [VERTICAL, '\n'])))

/-- `max_line_length`: the length of the longest line of the message. -/
def max_line_length (message : List Char) : Nat :=
  (rustLines message).foldl (fun max_length line => max max_length line.length) 0

/-- `Box::to_string`: render the boxed message. -/
def Box.to_string (b : Box) : List Char :=
  let max_length := max_line_length b.message
  let format := b.format
  let top_padding := format.padding_top.getD (format.padding / 2)
  let bottom_padding := format.padding_bottom.getD (format.padding / 2)
  let right_padding := format.padding_right.getD format.padding
  let left_padding := format.padding_left.getD format.padding
  let total_horizontal_pad := right_padding + left_padding
  gen_top (max_length + right_padding + left_padding) ++
    gen_vertical_padding top_padding (max_length + total_horizontal_pad) ++
    wrap_lines b.message format max_length ++
    gen_vertical_padding bottom_padding (max_length + right_padding + left_padding) ++
    gen_bottom (max_length + left_padding + right_padding)

/-- The effective top padding-row count: the override when set, else
`padding / 2` (the `unwrap_or` in `Box::to_string`). -/
def Formatting.topPadding (f : Formatting) : Nat :=
  f.padding_top.getD (f.padding / 2)

/-- The effective bottom padding-row count: the override when set, else
`padding / 2`. -/
def Formatting.bottomPadding (f : Formatting) : Nat :=
  f.padding_bottom.getD (f.padding / 2)

/-- The effective left padding width: the override when set, else `padding`. -/
def Formatting.leftPadding (f : Formatting) : Nat :=
  f.padding_left.getD f.padding

/-- The effective right padding width: the override when set, else `padding`. -/
def Formatting.rightPadding (f : Formatting) : Nat :=
  f.padding_right.getD f.padding

/-- A border row without its trailing newline: a corner, `w` horizontal
glyphs, a corner. -/
def borderRow (a b : Char) (w : Nat) : List Char :=
  a :: (List.replicate w HORIZONTAL ++ [b])

/-- A vertical-padding row without its trailing newline: `│`, `w` spaces, `│`. -/
def blankRow (w : Nat) : List Char :=
  VERTICAL :: (gen_whitespace w ++ [VERTICAL])

/-- A content row without its trailing newline, exactly as `wrap_lines`
builds it: `│`, the left padding, the line, the right padding, `│`. -/
def contentRow (format : Formatting) (max_length : Nat) (line : List Char) :
    List Char :=
  VERTICAL :: (gen_left_padding format line.length max_length ++ line ++
    gen_right_padding format line.length max_length ++ [VERTICAL])

/-! ## Lemmas about the line-splitting model -/

theorem stripCR_of_getLast {l : List Char} (h : l.getLast? ≠ some '\r') :
    stripCR l = l := by
  simp [stripCR, h]

theorem mem_of_mem_stripCR {c : Char} {l : List Char} (h : c ∈ stripCR l) :
    c ∈ l := by
  unfold stripCR at h
  split at h
  · exact (List.dropLast_sublist l).subset h
  · exact h

theorem rustLinesAux_no_newline :
    ∀ (s acc : List Char), '\n' ∉ acc →
      ∀ l ∈ rustLinesAux s acc, '\n' ∉ l := by
  intro s
  induction s with
  | nil =>
    intro acc hacc l hl
    simp only [rustLinesAux] at hl
    split at hl
    · simp at hl
    · simp only [List.mem_singleton] at hl
      subst hl
      simpa using hacc
  | cons c rest ih =>
    intro acc hacc l hl
    simp only [rustLinesAux] at hl
    split at hl
    · rcases List.mem_cons.mp hl with h | h
      · subst h
        intro hmem
        exact hacc (by simpa using mem_of_mem_stripCR hmem)
      · exact ih [] (by simp) l h
    · refine ih (c :: acc) ?_ l hl
      intro hmem
      rcases List.mem_cons.mp hmem with h | h
      · exact absurd h.symm (by assumption)
      · exact hacc h

theorem no_newline_of_mem_rustLines {m l : List Char} (h : l ∈ rustLines m) :
    '\n' ∉ l :=
  rustLinesAux_no_newline m [] (by simp) l h

theorem rustLinesAux_append (r : List Char) (rest acc : List Char)
    (h : '\n' ∉ r) :
    rustLinesAux (r ++ '\n' :: rest) acc
      = stripCR (acc.reverse ++ r) :: rustLinesAux rest [] := by
  induction r generalizing acc with
  | nil =>
    simp [rustLinesAux]
  | cons c r' ih =>
    have hc : c ≠ '\n' := fun hc => h (by simp [hc])
    have hr' : '\n' ∉ r' := fun hr => h (by simp [hr])
    simp only [List.cons_append, rustLinesAux, if_neg hc]
    show rustLinesAux (r' ++ '\n' :: rest) (c :: acc) = _
    rw [ih (c :: acc) hr']
    simp

theorem rustLines_cons_row (r rest : List Char) (h1 : '\n' ∉ r)
    (h2 : r.getLast? ≠ some '\r') :
    rustLines (r ++ '\n' :: rest) = r :: rustLines rest := by
  unfold rustLines
  rw [rustLinesAux_append r rest [] h1]
  simp [stripCR_of_getLast h2]

theorem rustLines_nil : rustLines [] = [] := rfl

theorem rustLines_flatten (rows : List (List Char)) (rest : List Char)
    (h : ∀ r ∈ rows, '\n' ∉ r ∧ r.getLast? ≠ some '\r') :
    rustLines (List.flatten (rows.map (fun r => r ++ ['\n'])) ++ rest)
      = rows ++ rustLines rest := by
  induction rows with
  | nil => simp
  | cons r rows' ih =>
    have hr := h r (by simp)
    have hrows' : ∀ x ∈ rows', '\n' ∉ x ∧ x.getLast? ≠ some '\r' :=
      fun x hx => h x (by simp [hx])
    calc rustLines (List.flatten ((r :: rows').map (fun x => x ++ ['\n'])) ++ rest)
        = rustLines (r ++ '\n' ::
            (List.flatten (rows'.map (fun x => x ++ ['\n'])) ++ rest)) := by
          simp
      _ = r :: rustLines (List.flatten (rows'.map (fun x => x ++ ['\n'])) ++ rest) :=
          rustLines_cons_row _ _ hr.1 hr.2
      _ = (r :: rows') ++ rustLines rest := by rw [ih hrows']; rfl

/-! ## Rows of the rendered output -/

theorem getLast?_row (a b : Char) (l : List Char) :
    (a :: (l ++ [b])).getLast? = some b := by
  rw [← List.cons_append]
  exact List.getLast?_concat _

theorem newline_not_mem_whitespace (n : Nat) : '\n' ∉ gen_whitespace n := by
  intro h
  have := List.eq_of_mem_replicate h
  exact absurd this (by decide)

theorem newline_not_mem_left_padding (f : Formatting) (n M : Nat) :
    '\n' ∉ gen_left_padding f n M :=
  newline_not_mem_whitespace _

theorem newline_not_mem_right_padding (f : Formatting) (n M : Nat) :
    '\n' ∉ gen_right_padding f n M :=
  newline_not_mem_whitespace _

theorem borderRow_ok (a b : Char) (w : Nat) (ha : a ≠ '\n') (hb : b ≠ '\n')
    (hbr : b ≠ '\r') :
    '\n' ∉ borderRow a b w ∧ (borderRow a b w).getLast? ≠ some '\r' := by
  constructor
  · intro h
    rcases List.mem_cons.mp h with h | h
    · exact ha h.symm
    · rcases List.mem_append.mp h with h | h
      · exact absurd (List.eq_of_mem_replicate h) (by decide)
      · simp only [List.mem_singleton] at h
        exact hb h.symm
  · rw [borderRow, getLast?_row]
    intro h
    exact hbr (Option.some.inj h)

theorem blankRow_ok (w : Nat) :
    '\n' ∉ blankRow w ∧ (blankRow w).getLast? ≠ some '\r' := by
  constructor
  · intro h
    rcases List.mem_cons.mp h with h | h
    · exact absurd h (by decide)
    · rcases List.mem_append.mp h with h | h
      · exact newline_not_mem_whitespace w h
      · simp only [List.mem_singleton] at h
        exact absurd h (by decide)
  · rw [blankRow, getLast?_row]
    decide

theorem contentRow_ok (f : Formatting) (M : Nat) {l : List Char}
    (hl : '\n' ∉ l) :
    '\n' ∉ contentRow f M l ∧ (contentRow f M l).getLast? ≠ some '\r' := by
  constructor
  · intro h
    rcases List.mem_cons.mp h with h | h
    · exact absurd h (by decide)
    · rcases List.mem_append.mp h with h | h
      · rcases List.mem_append.mp h with h | h
        · rcases List.mem_append.mp h with h | h
          · exact newline_not_mem_left_padding f l.length M h
          · exact hl h
        · exact newline_not_mem_right_padding f l.length M h
      · simp only [List.mem_singleton] at h
        exact absurd h (by decide)
  · rw [contentRow, getLast?_row]
    decide

theorem gen_top_eq (w : Nat) :
    gen_top w = borderRow TOP_LEFT TOP_RIGHT w ++ ['\n'] := by
  simp [gen_top, borderRow]

theorem gen_bottom_eq (w : Nat) :
    gen_bottom w = borderRow BOTTOM_LEFT BOTTOM_RIGHT w ++ ['\n'] := by
  simp [gen_bottom, borderRow]

theorem gen_vertical_padding_eq (n w : Nat) :
    gen_vertical_padding n w
      = List.flatten (List.replicate n (blankRow w ++ ['\n'])) := by
  simp [gen_vertical_padding, blankRow]

theorem wrap_lines_eq (m : List Char) (f : Formatting) (M : Nat) :
    wrap_lines m f M
      = List.flatten ((rustLines m).map (fun l => contentRow f M l ++ ['\n'])) := by
  simp [wrap_lines, contentRow]

theorem to_string_rowified (b : Box) :
    Box.to_string b
      = (borderRow TOP_LEFT TOP_RIGHT
            (max_line_length b.message + b.format.rightPadding + b.format.leftPadding)
          ++ ['\n'])
        ++ List.flatten (List.replicate b.format.topPadding
            (blankRow (max_line_length b.message + b.format.rightPadding
              + b.format.leftPadding) ++ ['\n']))
        ++ List.flatten ((rustLines b.message).map (fun l =>
            contentRow b.format (max_line_length b.message) l ++ ['\n']))
        ++ List.flatten (List.replicate b.format.bottomPadding
            (blankRow (max_line_length b.message + b.format.rightPadding
              + b.format.leftPadding) ++ ['\n']))
        ++ (borderRow BOTTOM_LEFT BOTTOM_RIGHT
            (max_line_length b.message + b.format.rightPadding + b.format.leftPadding)
          ++ ['\n']) := by
  have h1 : max_line_length b.message
        + (b.format.rightPadding + b.format.leftPadding)
      = max_line_length b.message + b.format.rightPadding + b.format.leftPadding :=
    (Nat.add_assoc _ _ _).symm
  have h2 : max_line_length b.message
        + b.format.leftPadding + b.format.rightPadding
      = max_line_length b.message + b.format.rightPadding + b.format.leftPadding :=
    Nat.add_right_comm _ _ _
  have ht : b.format.padding_top.getD (b.format.padding / 2)
      = b.format.topPadding := rfl
  have hb : b.format.padding_bottom.getD (b.format.padding / 2)
      = b.format.bottomPadding := rfl
  have hl : b.format.padding_left.getD b.format.padding
      = b.format.leftPadding := rfl
  have hr : b.format.padding_right.getD b.format.padding
      = b.format.rightPadding := rfl
  simp only [Box.to_string]
  rw [ht, hb, hl, hr, h1, h2, gen_top_eq, gen_bottom_eq, gen_vertical_padding_eq,
    gen_vertical_padding_eq, wrap_lines_eq]

theorem to_string_rows (b : Box) :
    rustLines (Box.to_string b)
      = borderRow TOP_LEFT TOP_RIGHT
          (max_line_length b.message + b.format.rightPadding + b.format.leftPadding)
        :: (List.replicate b.format.topPadding
            (blankRow (max_line_length b.message + b.format.rightPadding
              + b.format.leftPadding))
          ++ (rustLines b.message).map
              (contentRow b.format (max_line_length b.message))
          ++ List.replicate b.format.bottomPadding
            (blankRow (max_line_length b.message + b.format.rightPadding
              + b.format.leftPadding))
          ++ [borderRow BOTTOM_LEFT BOTTOM_RIGHT
              (max_line_length b.message + b.format.rightPadding
                + b.format.leftPadding)]) := by
  set W := max_line_length b.message + b.format.rightPadding + b.format.leftPadding
    with hW
  set rows : List (List Char) :=
    borderRow TOP_LEFT TOP_RIGHT W
      :: (List.replicate b.format.topPadding (blankRow W)
        ++ (rustLines b.message).map (contentRow b.format (max_line_length b.message))
        ++ List.replicate b.format.bottomPadding (blankRow W)
        ++ [borderRow BOTTOM_LEFT BOTTOM_RIGHT W]) with hrows
  have hok : ∀ r ∈ rows, '\n' ∉ r ∧ r.getLast? ≠ some '\r' := by
    intro r hr
    rw [hrows] at hr
    rcases List.mem_cons.mp hr with h | h
    · subst h
      exact borderRow_ok _ _ _ (by decide) (by decide) (by decide)
    · rcases List.mem_append.mp h with h | h
      · rcases List.mem_append.mp h with h | h
        · rcases List.mem_append.mp h with h | h
          · rw [List.eq_of_mem_replicate h]
            exact blankRow_ok W
          · obtain ⟨l, hl, rfl⟩ := List.mem_map.mp h
            exact contentRow_ok _ _ (no_newline_of_mem_rustLines hl)
        · rw [List.eq_of_mem_replicate h]
          exact blankRow_ok W
      · simp only [List.mem_singleton] at h
        subst h
        exact borderRow_ok _ _ _ (by decide) (by decide) (by decide)
  have hstr : Box.to_string b
      = List.flatten (rows.map (fun r => r ++ ['\n'])) ++ [] := by
    rw [to_string_rowified b, hrows]
    simp [List.flatten_append, List.map_replicate, Function.comp_def,
      List.append_assoc]
  rw [hstr, rustLines_flatten rows [] hok, rustLines_nil, List.append_nil]

/-! ## The longest-line metric -/

theorem foldl_max_init_le (L : List (List Char)) (n : Nat) :
    n ≤ L.foldl (fun a x => max a x.length) n := by
  induction L generalizing n with
  | nil => exact Nat.le_refl n
  | cons y L' ih => exact le_trans (Nat.le_max_left n y.length) (ih _)

theorem length_le_foldl_max (L : List (List Char)) (n : Nat) (l : List Char)
    (hl : l ∈ L) :
    l.length ≤ L.foldl (fun a x => max a x.length) n := by
  induction L generalizing n with
  | nil => cases hl
  | cons y L' ih =>
    rcases List.mem_cons.mp hl with h | h
    · subst h
      exact le_trans (Nat.le_max_right n l.length) (foldl_max_init_le L' _)
    · exact ih _ h

theorem foldl_max_attained (L : List (List Char)) (n : Nat) :
    L.foldl (fun a x => max a x.length) n = n
      ∨ ∃ l ∈ L, L.foldl (fun a x => max a x.length) n = l.length := by
  induction L generalizing n with
  | nil => exact Or.inl rfl
  | cons y L' ih =>
    have hstep : (y :: L').foldl (fun a x => max a x.length) n
        = L'.foldl (fun a x => max a x.length) (max n y.length) := rfl
    rcases ih (max n y.length) with h | ⟨l, hl, h⟩
    · rcases Nat.le_total y.length n with hle | hle
      · left
        rw [hstep, h, Nat.max_eq_left hle]
      · right
        exact ⟨y, by simp, by rw [hstep, h, Nat.max_eq_right hle]⟩
    · right
      exact ⟨l, by simp [hl], by rw [hstep, h]⟩

theorem length_le_max_line_length {m l : List Char} (hl : l ∈ rustLines m) :
    l.length ≤ max_line_length m :=
  length_le_foldl_max (rustLines m) 0 l hl

/-! ## Congruence in the formatting fields actually consulted -/

theorem gen_left_padding_congr {f g : Formatting} (hp : f.padding = g.padding)
    (ha : f.alignment = g.alignment) (n M : Nat) :
    gen_left_padding f n M = gen_left_padding g n M := by
  simp only [gen_left_padding, hp, ha]

theorem gen_right_padding_congr {f g : Formatting} (hp : f.padding = g.padding)
    (ha : f.alignment = g.alignment) (n M : Nat) :
    gen_right_padding f n M = gen_right_padding g n M := by
  simp only [gen_right_padding, hp, ha]

theorem wrap_lines_congr {f g : Formatting} (hp : f.padding = g.padding)
    (ha : f.alignment = g.alignment) (m : List Char) (M : Nat) :
    wrap_lines m f M = wrap_lines m g M := by
  simp only [wrap_lines, gen_left_padding_congr hp ha,
    gen_right_padding_congr hp ha]

/-! ## The final line terminator is optional -/

theorem rustLinesAux_cons_newline (rest acc : List Char) :
    rustLinesAux ('\n' :: rest) acc = stripCR acc.reverse :: rustLinesAux rest [] := by
  simp [rustLinesAux]

theorem rustLinesAux_cons_other {c : Char} (hc : c ≠ '\n') (rest acc : List Char) :
    rustLinesAux (c :: rest) acc = rustLinesAux rest (c :: acc) := by
  simp [rustLinesAux, hc]

theorem rustLinesAux_append_newline :
    ∀ (m acc : List Char), m ≠ [] → m.getLast? ≠ some '\n' →
      m.getLast? ≠ some '\r' →
      rustLinesAux (m ++ ['\n']) acc = rustLinesAux m acc := by
  intro m
  induction m with
  | nil => intro acc h; cases h rfl
  | cons c m ih =>
    intro acc _ hn hr
    match m with
    | [] =>
      have hc : c ≠ '\n' := fun h => hn (by simp [h])
      have hcr : c ≠ '\r' := fun h => hr (by simp [h])
      rw [show (c :: []) ++ ['\n'] = c :: ['\n'] from rfl,
        rustLinesAux_cons_other hc ['\n'] acc,
        rustLinesAux_cons_newline [] (c :: acc),
        rustLinesAux_cons_other hc [] acc]
      have hs : stripCR (c :: acc).reverse = (c :: acc).reverse := by
        apply stripCR_of_getLast
        rw [List.reverse_cons, List.getLast?_concat]
        intro h
        exact hcr (Option.some.inj h)
      rw [hs]
      simp [rustLinesAux]
    | d :: m' =>
      have hn' : (d :: m').getLast? ≠ some '\n' := by
        rwa [List.getLast?_cons_cons] at hn
      have hr' : (d :: m').getLast? ≠ some '\r' := by
        rwa [List.getLast?_cons_cons] at hr
      by_cases hc : c = '\n'
      · subst hc
        rw [show ('\n' :: (d :: m')) ++ ['\n'] = '\n' :: ((d :: m') ++ ['\n']) from rfl,
          rustLinesAux_cons_newline ((d :: m') ++ ['\n']) acc,
          rustLinesAux_cons_newline (d :: m') acc,
          ih [] (by simp) hn' hr']
      · rw [show (c :: (d :: m')) ++ ['\n'] = c :: ((d :: m') ++ ['\n']) from rfl,
          rustLinesAux_cons_other hc ((d :: m') ++ ['\n']) acc,
          rustLinesAux_cons_other hc (d :: m') acc]
        exact ih (c :: acc) (by simp) hn' hr'

theorem rustLines_append_newline {m : List Char} (h0 : m ≠ [])
    (hn : m.getLast? ≠ some '\n') (hr : m.getLast? ≠ some '\r') :
    rustLines (m ++ ['\n']) = rustLines m :=
  rustLinesAux_append_newline m [] h0 hn hr

/-! ## Per-content-row facts shared between claims -/

theorem contentRow_length_alignment (f : Formatting) (M : Nat) (l : List Char) :
    (contentRow { f with alignment := Alignment.Left } M l).length
      = (contentRow { f with alignment := Alignment.Right } M l).length := by
  simp [contentRow, gen_left_padding, gen_right_padding, gen_whitespace]
  omega

/-! ## The claims -/

/-- C1: the spec claims every line of the rendered output has the same
character length for every configuration. The code violates this: with a
side override (`padding_left 5` on message `"a"`, global padding left at its
default 2), the border and blank rows use the resolved left padding (5) but
the content row is built by `gen_left_padding`/`gen_right_padding` from the
global `format.padding` (2), so the five lines of the output have lengths
10, 10, 7, 10, 10 — not all equal. -/
theorem C1_uniform_width_violation :
    ((rustLines (Box.to_string ((Box.new ['a']).padding_left 5))).map List.length)
      = [10, 10, 7, 10, 10] := by
  decide

/-- C2: the spec claims the content row uses the side-specific override
values when set. The code violates this: with `padding_right 7` on message
`"a"`, the border rows use interior width 1 + 7 + 2 = 10, but the content
row keeps the global padding 2 on each side, producing `│  a  │` instead of
the claimed `│  a       │`. -/
theorem C2_side_override_ignored :
    Box.to_string ((Box.new ['a']).padding_right 7)
      = ("┌──────────┐\n│          │\n│  a  │\n│          │\n└──────────┘\n").toList := by
  decide

/-- C3: with global padding `p` and no side overrides, the render consists
of the top border, exactly `p / 2` blank interior rows, the content rows,
exactly `p / 2` blank interior rows, and the bottom border, all with
interior width `contentWidth + p + p` (that is, `p` space columns of left
and `p` of right interior padding around the content width). -/
theorem C3_default_padding_split (m : List Char) (p mw : Nat) (a : Alignment) :
    rustLines (Box.to_string ⟨m, ⟨p, a, mw, none, none, none, none⟩⟩)
      = borderRow TOP_LEFT TOP_RIGHT (max_line_length m + p + p)
        :: (List.replicate (p / 2) (blankRow (max_line_length m + p + p))
          ++ (rustLines m).map
              (contentRow ⟨p, a, mw, none, none, none, none⟩ (max_line_length m))
          ++ List.replicate (p / 2) (blankRow (max_line_length m + p + p))
          ++ [borderRow BOTTOM_LEFT BOTTOM_RIGHT (max_line_length m + p + p)]) :=
  to_string_rows ⟨m, ⟨p, a, mw, none, none, none, none⟩⟩

/-- C4: `max_line_length` is the maximum character-unit length over the
message's lines: it bounds every line, is attained by some line when there
is one, an empty message yields zero lines and result 0, and a trailing
newline (after a line not already terminated) does not produce an extra
empty final line. The function takes only the message, so the result cannot
depend on padding or alignment configuration. -/
theorem C4_longest_line_metric (m : List Char) :
    (∀ l ∈ rustLines m, l.length ≤ max_line_length m)
    ∧ (rustLines m ≠ [] → ∃ l ∈ rustLines m, l.length = max_line_length m)
    ∧ rustLines ([] : List Char) = []
    ∧ max_line_length [] = 0
    ∧ (m ≠ [] → m.getLast? ≠ some '\n' → m.getLast? ≠ some '\r' →
        rustLines (m ++ ['\n']) = rustLines m) := by
  refine ⟨fun l hl => length_le_max_line_length hl, ?_, rfl, rfl,
    fun h0 hn hr => rustLines_append_newline h0 hn hr⟩
  intro hne
  rcases foldl_max_attained (rustLines m) 0 with h | ⟨l, hl, h⟩
  · obtain ⟨l, hl⟩ := List.exists_mem_of_ne_nil (rustLines m) hne
    refine ⟨l, hl, ?_⟩
    have h1 := length_le_max_line_length hl
    have h2 : max_line_length m = 0 := h
    omega
  · exact ⟨l, hl, h.symm⟩

/-- Witness for C4 at the concrete message `"ab"`. -/
theorem C4_longest_line_metric_witness :
    ['a', 'b'].length ≤ max_line_length ['a', 'b']
    ∧ (∃ l ∈ rustLines ['a', 'b'], l.length = max_line_length ['a', 'b'])
    ∧ rustLines (['a', 'b'] ++ ['\n']) = rustLines ['a', 'b'] :=
  ⟨(C4_longest_line_metric ['a', 'b']).1 ['a', 'b'] (by decide),
   (C4_longest_line_metric ['a', 'b']).2.1 (by decide),
   (C4_longest_line_metric ['a', 'b']).2.2.2.2 (by decide) (by decide) (by decide)⟩

/-- C5: for every box, the render is exactly the concatenation, in this
fixed order, of the top border row, the top vertical-padding rows, one
content row per message line in the original order, the bottom
vertical-padding rows, and the bottom border row, each newline-terminated,
with border interior width `contentWidth + rightPadding + leftPadding`. -/
theorem C5_render_row_order (b : Box) :
    Box.to_string b
      = (borderRow TOP_LEFT TOP_RIGHT
            (max_line_length b.message + b.format.rightPadding + b.format.leftPadding)
          ++ ['\n'])
        ++ List.flatten (List.replicate b.format.topPadding
            (blankRow (max_line_length b.message + b.format.rightPadding
              + b.format.leftPadding) ++ ['\n']))
        ++ List.flatten ((rustLines b.message).map (fun l =>
            contentRow b.format (max_line_length b.message) l ++ ['\n']))
        ++ List.flatten (List.replicate b.format.bottomPadding
            (blankRow (max_line_length b.message + b.format.rightPadding
              + b.format.leftPadding) ++ ['\n']))
        ++ (borderRow BOTTOM_LEFT BOTTOM_RIGHT
            (max_line_length b.message + b.format.rightPadding + b.format.leftPadding)
          ++ ['\n']) :=
  to_string_rowified b

/-- C6: rendering `Box::new("whatever\nwhatever")` with the default
configuration returns exactly the reference string. -/
theorem C6_default_render_example :
    Box.to_string (Box.new ("whatever\nwhatever").toList)
      = ("┌────────────┐\n│            │\n│  whatever  │\n│  whatever  │\n│            │\n└────────────┘\n").toList := by
  decide

/-- C7: rendering the empty message gives `contentWidth = 0` and a
correctly bordered box whose interior width is just the resolved left and
right padding; the message has no lines, so `wrap_lines` emits no content
rows, and every emitted row is border-flanked with the zero-width content
area. -/
theorem C7_empty_message_render (f : Formatting) :
    max_line_length [] = 0
    ∧ wrap_lines [] f 0 = []
    ∧ rustLines (Box.to_string ⟨[], f⟩)
        = borderRow TOP_LEFT TOP_RIGHT (f.rightPadding + f.leftPadding)
          :: (List.replicate f.topPadding
              (blankRow (f.rightPadding + f.leftPadding))
            ++ List.replicate f.bottomPadding
              (blankRow (f.rightPadding + f.leftPadding))
            ++ [borderRow BOTTOM_LEFT BOTTOM_RIGHT
                (f.rightPadding + f.leftPadding)]) := by
  refine ⟨rfl, rfl, ?_⟩
  have h := to_string_rows ⟨[], f⟩
  simpa [show max_line_length [] = 0 from rfl, rustLines_nil] using h

/-- C8: `max_width` is stored by its setter but never consulted by the
renderer: two boxes differing only in the `max_width` value render to the
same string. -/
theorem C8_max_width_no_effect (b : Box) (w w' : Nat) :
    Box.to_string (Box.max_width b w) = Box.to_string (Box.max_width b w')
      ∧ (Box.max_width b w).format.max_width = w := by
  refine ⟨?_, rfl⟩
  rcases b with ⟨msg, fmt⟩
  rcases fmt with ⟨p, a, mw, pl, pr, pt, pb⟩
  have hw := wrap_lines_congr
    (f := Formatting.mk p a w pl pr pt pb)
    (g := Formatting.mk p a w' pl pr pt pb) rfl rfl msg
  simp only [Box.to_string, Box.max_width]
  rw [hw]

/-- C9: for a fixed message and otherwise identical configuration, the
Left-aligned and Right-aligned renders have rows of identical lengths and
identical border and blank rows; each content row carries the same line
text, with the alignment only moving the width deficit between the two
sides, whose total space count is the same. -/
theorem C9_alignment_symmetry (m : List Char) (f : Formatting) (l : List Char) :
    (rustLines (Box.to_string ⟨m, { f with alignment := Alignment.Left }⟩)).map
        List.length
      = (rustLines (Box.to_string ⟨m, { f with alignment := Alignment.Right }⟩)).map
        List.length
    ∧ rustLines (Box.to_string ⟨m, { f with alignment := Alignment.Left }⟩)
        = borderRow TOP_LEFT TOP_RIGHT
            (max_line_length m + f.rightPadding + f.leftPadding)
          :: (List.replicate f.topPadding
              (blankRow (max_line_length m + f.rightPadding + f.leftPadding))
            ++ (rustLines m).map
                (contentRow { f with alignment := Alignment.Left } (max_line_length m))
            ++ List.replicate f.bottomPadding
              (blankRow (max_line_length m + f.rightPadding + f.leftPadding))
            ++ [borderRow BOTTOM_LEFT BOTTOM_RIGHT
                (max_line_length m + f.rightPadding + f.leftPadding)])
    ∧ rustLines (Box.to_string ⟨m, { f with alignment := Alignment.Right }⟩)
        = borderRow TOP_LEFT TOP_RIGHT
            (max_line_length m + f.rightPadding + f.leftPadding)
          :: (List.replicate f.topPadding
              (blankRow (max_line_length m + f.rightPadding + f.leftPadding))
            ++ (rustLines m).map
                (contentRow { f with alignment := Alignment.Right } (max_line_length m))
            ++ List.replicate f.bottomPadding
              (blankRow (max_line_length m + f.rightPadding + f.leftPadding))
            ++ [borderRow BOTTOM_LEFT BOTTOM_RIGHT
                (max_line_length m + f.rightPadding + f.leftPadding)])
    ∧ contentRow { f with alignment := Alignment.Left } (max_line_length m) l
        = VERTICAL :: (gen_whitespace f.padding ++ l
            ++ gen_whitespace (f.padding + max_line_length m - l.length)
            ++ [VERTICAL])
    ∧ contentRow { f with alignment := Alignment.Right } (max_line_length m) l
        = VERTICAL :: (gen_whitespace (f.padding + max_line_length m - l.length)
            ++ l ++ gen_whitespace f.padding ++ [VERTICAL])
    ∧ f.padding + (f.padding + max_line_length m - l.length)
        = (f.padding + max_line_length m - l.length) + f.padding := by
  have hL := to_string_rows ⟨m, { f with alignment := Alignment.Left }⟩
  have hR := to_string_rows ⟨m, { f with alignment := Alignment.Right }⟩
  refine ⟨?_, hL, hR, rfl, rfl, Nat.add_comm _ _⟩
  rw [hL, hR]
  simp only [List.map_cons, List.map_append, List.map_replicate, List.map_map]
  have hmap : List.map
      (List.length ∘ contentRow { f with alignment := Alignment.Left }
        (max_line_length m)) (rustLines m)
    = List.map
      (List.length ∘ contentRow { f with alignment := Alignment.Right }
        (max_line_length m)) (rustLines m) :=
    List.map_congr_left fun x _ =>
      contentRow_length_alignment f (max_line_length m) x
  rw [hmap]
  simp [Formatting.topPadding, Formatting.bottomPadding, Formatting.rightPadding,
    Formatting.leftPadding]

/-- C10: every line of the message has length at most the content width
computed by `max_line_length` over the same message, so the quantity
`padding + contentWidth - lineLength` in `gen_left_padding` and
`gen_right_padding` never underflows: subtracting the line length and
adding it back is the identity, and rendering is total. -/
theorem C10_no_underflow (m l : List Char) (hl : l ∈ rustLines m) :
    l.length ≤ max_line_length m
    ∧ ∀ p : Nat,
        p + max_line_length m - l.length + l.length = p + max_line_length m := by
  have h := length_le_max_line_length hl
  exact ⟨h, fun p => Nat.sub_add_cancel (le_trans h (Nat.le_add_left _ p))⟩

/-- Witness for C10 at the concrete message `"ab\nc"` and its line `"ab"`. -/
theorem C10_no_underflow_witness :
    ['a', 'b'] ∈ rustLines ['a', 'b', '\n', 'c']
    ∧ (['a', 'b'].length ≤ max_line_length ['a', 'b', '\n', 'c']
      ∧ ∀ p : Nat,
          p + max_line_length ['a', 'b', '\n', 'c'] - ['a', 'b'].length
            + ['a', 'b'].length = p + max_line_length ['a', 'b', '\n', 'c']) :=
  ⟨by decide, C10_no_underflow ['a', 'b', '\n', 'c'] ['a', 'b'] (by decide)⟩

end Boxing
